import Mathlib

/-!
Shallow embedding of the terminal-session subsystem of the appPad
repository: the marker-protocol codec, the exec request queue,
session-exit failure propagation, output flow control and shell
normalization.  Byte streams are modelled as `List Char` (the renderer
receives PTY output as JavaScript strings and all scanning in the source
is by code unit).  Each definition is a direct translation of the named
source function; deviations forced by totality (an explicit fuel bound
for a source `while` loop) are noted where they occur.
-/

namespace AppPad

/-- Whitespace test used to model JavaScript's `trim()` emptiness check and
the `\s` character class on the ASCII inputs this protocol handles. -/
def isSpaceChar (c : Char) : Bool :=
  c = ' ' || c = '\t' || c = '\n' || c = '\r' || c = '\x0b' || c = '\x0c'

/-- The decimal-digit class `\d` (ASCII). -/
def isDigitChar (c : Char) : Bool :=
  c.isDigit

/-- Position of the first occurrence of `pat` in `l` (JS `String.indexOf`
restricted to search start 0), as an offset into `l`. -/
def firstMatchPos (pat : List Char) : List Char → Option Nat
  | [] => if pat.isPrefixOf ([] : List Char) then some 0 else none
  | c :: rest =>
    if pat.isPrefixOf (c :: rest) then some 0
    else (firstMatchPos pat rest).map (· + 1)

/-- JS `input.indexOf(pat, searchFrom)` for the nonempty patterns used by
the codec. -/
def indexOfFrom (input pat : List Char) (searchFrom : Nat) : Option Nat :=
  (firstMatchPos pat (input.drop searchFrom)).map (· + searchFrom)

/-- Source `getMarkerTailLength`, inner loop: largest `len ≤ bound` such
that `input` ends with the first `len` characters of `marker`. -/
def markerTailFrom (input marker : List Char) : Nat → Nat
  | 0 => 0
  | len + 1 =>
    if (marker.take (len + 1)).isSuffixOf input then len + 1
    else markerTailFrom input marker len

/-- Source `getMarkerTailLength` (part_006 lines 45-51): length of the
longest suffix of `input` that is a proper prefix of `marker`
(the loop bound is `min input.length (marker.length - 1)`). -/
def getMarkerTailLength (input marker : List Char) : Nat :=
  markerTailFrom input marker (min input.length (marker.length - 1))

/-- One step of the `findStandaloneMarkerLine` loop body: is the
occurrence of `marker` at `idx` bounded by newline or stream edge? -/
def standaloneAt (input marker : List Char) (idx : Nat) : Bool :=
  let prev : Option Char := if idx = 0 then none else input[idx - 1]?
  let next : Option Char := input[idx + marker.length]?
  (prev = none || prev = some '\n' || prev = some '\r') &&
    (next = none || next = some '\n' || next = some '\r')

/-- Loop of source `findStandaloneMarkerLine` (part_006 lines 53-68).
The fuel argument bounds the number of iterations of the source's
`while (searchFrom < input.length)` loop; for the nonempty markers this
codec uses, `searchFrom` strictly increases each iteration, so fuel
`input.length + 1` makes the model coincide with the loop. -/
def findStandaloneAux (input marker : List Char) : Nat → Nat → Option Nat
  | 0, _ => none
  | fuel + 1, searchFrom =>
    if searchFrom < input.length then
      match indexOfFrom input marker searchFrom with
      | none => none
      | some idx =>
        if standaloneAt input marker idx then some idx
        else findStandaloneAux input marker fuel (idx + marker.length)
    else none

/-- Source `findStandaloneMarkerLine`: index of the first occurrence of
`marker` that stands alone on its line, scanning left to right and
skipping non-standalone occurrences. -/
def findStandaloneMarkerLine (input marker : List Char) : Option Nat :=
  findStandaloneAux input marker (input.length + 1) 0

/-- JS `line.replace(/\r?\n$/, '')`: remove one trailing LF together with
an immediately preceding CR. -/
def stripTrailingNewline (l : List Char) : List Char :=
  if (['\r', '\n'] : List Char).isSuffixOf l then l.dropLast.dropLast
  else if (['\n'] : List Char).isSuffixOf l then l.dropLast
  else l

/-- JS `haystack.includes(needle)`. -/
def containsSeq (haystack needle : List Char) : Bool :=
  decide (needle <:+: haystack)

/-- The literal `__apppad_exec_code=$?` assignment text the wrapper emits. -/
def execCodeAssignText : List Char :=
  "__apppad_exec_code=$?".toList

/-- The literal `printf '%s%s%s\n'` invocation text of the wrapper (the
backslash-n is two characters in the source string). -/
def execPrintfText : List Char :=
  "printf '%s%s%s\\n'".toList

/-- Model of the regex `^\s*%\s*$`. -/
def isBarePercentLine (l : List Char) : Bool :=
  match l.dropWhile isSpaceChar with
  | '%' :: rest => rest.all isSpaceChar
  | _ => false

/-- Model of the regex `^\s*~\s*'\s*$`. -/
def isBareTildeQuoteLine (l : List Char) : Bool :=
  match l.dropWhile isSpaceChar with
  | '~' :: rest =>
    match rest.dropWhile isSpaceChar with
    | '\'' :: rest2 => rest2.all isSpaceChar
    | _ => false
  | _ => false

/-- Source `shouldFilterExecNoiseLine` (part_006 lines 74-84).  A blank
(all-whitespace) line is never noise; otherwise a line is noise when it
contains the wrapper's exit-code assignment, the wrapper's printf text,
either marker, or is bare prompt filler. -/
def shouldFilterExecNoiseLine (line beginMarker doneMarker : List Char) : Bool :=
  let normalized := stripTrailingNewline line
  if normalized.all isSpaceChar then false
  else if containsSeq normalized execCodeAssignText then true
  else if containsSeq normalized execPrintfText then true
  else if containsSeq normalized beginMarker then true
  else if containsSeq normalized doneMarker then true
  else if isBarePercentLine normalized then true
  else if isBareTildeQuoteLine normalized then true
  else false

/-- Split a buffer into its complete (`'\n'`-terminated) lines and the
trailing incomplete remainder, exactly as the cursor loop of
`filterExecNoiseChunk` walks it. -/
def splitLines : List Char → List (List Char) × List Char
  | [] => ([], [])
  | c :: rest =>
    let p := splitLines rest
    if c = '\n' then (['\n'] :: p.1, p.2)
    else
      match p.1 with
      | [] => ([], c :: p.2)
      | l :: ls => ((c :: l) :: ls, p.2)

/-- Source `filterExecNoiseChunk` (part_006 lines 86-111): prepend the
carried partial line, keep every complete line that is not noise, and
carry the trailing incomplete line forward.  Returns
`(visible, new filter carry)`. -/
def filterExecNoiseChunk (beginMarker doneMarker carry chunk : List Char) :
    List Char × List Char :=
  let combined := carry ++ chunk
  let p := splitLines combined
  ((p.1.filter (fun l => !shouldFilterExecNoiseLine l beginMarker doneMarker)).flatten, p.2)

/-- Source `buildExecWrapper` (part_006 lines 113-116). -/
def buildExecWrapper (command beginMarker doneMarker : List Char) : List Char :=
  let normalizedCommand :=
    if (['\n'] : List Char).isSuffixOf command then command else command ++ ['\n']
  "printf '%s\\n' '".toList ++ beginMarker ++ "'\n".toList ++
    normalizedCommand ++ "__apppad_exec_code=$?\n".toList ++
    "printf '%s%s%s\\n' '".toList ++ doneMarker ++
    "' \"$__apppad_exec_code\" '__'\n".toList

/-- `EXEC_BEGIN_MARKER_PREFIX + requestId + '__'` (part_006 line 443). -/
def beginMarkerOf (requestId : List Char) : List Char :=
  "__APPPAD_EXEC_BEGIN__".toList ++ requestId ++ "__".toList

/-- `EXEC_DONE_MARKER_PREFIX + requestId + '_'` (part_006 line 444). -/
def doneMarkerOf (requestId : List Char) : List Char :=
  "__APPPAD_EXEC_DONE__".toList ++ requestId ++ "_".toList

/-- The decoder state of one in-flight wrapped command (source
`ActiveExecState`).  `rawTail` is the source's `partial` field (the
marker-scan buffer) and `filterCarry` is its `outputFilterPartial`
(the noise filter's incomplete-line buffer); both are renamed only
because the original identifiers are unavailable here. -/
structure ActiveExecState where
  requestId : List Char
  beginMarker : List Char
  doneMarker : List Char
  started : Bool
  rawTail : List Char
  filterCarry : List Char
  captured : List Char
deriving Repr, DecidableEq

/-- The state created when the queue dispatches request `requestId`
(part_006 lines 445-453). -/
def freshActiveExec (requestId : List Char) : ActiveExecState :=
  { requestId := requestId
    beginMarker := beginMarkerOf requestId
    doneMarker := doneMarkerOf requestId
    started := false
    rawTail := []
    filterCarry := []
    captured := [] }

/-- `TerminalExecResult` from the renderer lib (success flag, exit code or
null, stdout, stderr, optional error message). -/
structure TerminalExecResult where
  success : Bool
  code : Option Int
  stdout : List Char
  stderr : List Char
  error : Option (List Char)
deriving Repr, DecidableEq

/-- Decimal digit string of a natural number (used to render exit codes
into JS template strings). -/
def natDecimal (n : Nat) : List Char :=
  Nat.toDigits 10 n

/-- Decimal rendering of an integer, as JS string interpolation does. -/
def intDecimal (i : Int) : List Char :=
  if i < 0 then '-' :: natDecimal i.natAbs else natDecimal i.natAbs

/-- Value of a (nonempty) decimal digit string. -/
def natFromDigits (ds : List Char) : Nat :=
  ds.foldl (fun acc c => acc * 10 + (c.toNat - '0'.toNat)) 0

/-- `Number.parseInt` on the capture group `-?\d+` of the done pattern. -/
def parseSignedDigits (g : List Char) : Int :=
  match g with
  | c :: t => if c = '-' then -(natFromDigits t : Int) else (natFromDigits g : Int)
  | [] => (natFromDigits [] : Int)

/-- The `\d+__` part of the done pattern: the maximal run of digits,
required nonempty and followed immediately by `__`. -/
def digitsThenTerm (rest : List Char) : Option (List Char) :=
  let ds := rest.takeWhile isDigitChar
  if ds = [] then none
  else if (['_', '_'] : List Char).isPrefixOf (rest.drop ds.length) then some ds
  else none

/-- The capture group `-?\d+` (a leading minus must be followed by the
digit run; the regex cannot backtrack into accepting `-` as a digit). -/
def execCodeGroup (rest : List Char) : Option (List Char) :=
  match rest with
  | c :: t =>
    if c = '-' then (digitsThenTerm t).map (fun ds => '-' :: ds)
    else digitsThenTerm (c :: t)
  | [] => digitsThenTerm []

/-- Does the done pattern `(?:^|\r?\n)doneMarker(-?\d+)__` match with the
marker occurrence at offset `q` of `s`?  Returns the parsed exit code and
the length of the capture group.  (For markers that do not begin with CR
or LF — all markers here begin with `_` — the marker offset of the
regex's leftmost match is exactly the least such `q`.) -/
def doneQualAt (s doneMarker : List Char) (q : Nat) : Option (Int × Nat) :=
  if (q = 0 ∨ s[q - 1]? = some '\n') ∧ doneMarker.isPrefixOf (s.drop q) then
    (execCodeGroup (s.drop (q + doneMarker.length))).map
      (fun g => (parseSignedDigits g, g.length))
  else none

/-- Leftmost-match scan: the first `q` (from `start`, within `fuel`
steps) at which `f` produces a value. -/
def findFirstSome (f : Nat → Option β) : Nat → Nat → Option (Nat × β)
  | 0, _ => none
  | fuel + 1, q =>
    match f q with
    | some v => some (q, v)
    | none => findFirstSome f fuel (q + 1)

/-- `donePattern.exec(combined)` of part_006 line 330-331, reduced to the
data the source uses: marker offset, parsed exit code, capture-group
length. -/
def findDoneMatch (s doneMarker : List Char) : Option (Nat × Int × Nat) :=
  findFirstSome (doneQualAt s doneMarker) (s.length + 1) 0

/-- Output of one `processExecOutput` call: the updated active-exec state
(`none` when the request resolved or none was active), the text passed on
for display, and the dispatched result, if any. -/
structure ProcOut where
  state : Option ActiveExecState
  display : List Char
  resolved : Option (List Char × TerminalExecResult)
deriving Repr, DecidableEq

/-- The message synthesized on a non-zero exit
(part_006 line 372). -/
def exitCodeMessage (exitCode : Int) : List Char :=
  "Command exited with code ".toList ++ intDecimal exitCode ++ ".".toList

/-- The `active.started` half of source `processExecOutput`
(part_006 lines 329-385): scan for the done pattern; if absent, retain
the longest possible partial-marker suffix and pass the rest through the
noise filter; if present, flush the filter, parse the exit code and
resolve the request. -/
def processStarted (a : ActiveExecState) (incoming : List Char) : ProcOut :=
  let combined := a.rawTail ++ incoming
  match findDoneMatch combined a.doneMarker with
  | none =>
    let keepLen := getMarkerTailLength combined a.doneMarker
    let rawVisible := combined.take (combined.length - keepLen)
    let f := filterExecNoiseChunk a.beginMarker a.doneMarker a.filterCarry rawVisible
    { state := some { a with
        rawTail := combined.drop (combined.length - keepLen)
        filterCarry := f.2
        captured := a.captured ++ f.1 }
      display := f.1
      resolved := none }
  | some (markerIndex, parsedCode, groupLen) =>
    let markerSuffixLength := a.doneMarker.length + groupLen + 2
    let rawVisibleBefore := combined.take markerIndex
    let f := filterExecNoiseChunk a.beginMarker a.doneMarker a.filterCarry rawVisibleBefore
    let captured1 := a.captured ++ f.1
    let captured2 :=
      if f.2 ≠ [] ∧ ¬shouldFilterExecNoiseLine f.2 a.beginMarker a.doneMarker = true
      then captured1 ++ f.2 else captured1
    let exitCode := parsedCode
    let result : TerminalExecResult :=
      if exitCode = 0 then
        { success := true, code := some 0, stdout := captured2, stderr := [], error := none }
      else
        { success := false, code := some exitCode, stdout := captured2
          stderr := exitCodeMessage exitCode, error := some (exitCodeMessage exitCode) }
    { state := none
      display := f.1 ++ combined.drop (markerIndex + markerSuffixLength)
      resolved := some (a.requestId, result) }

/-- Drop at most one leading newline (`\r\n` or `\n`) after the begin
marker (part_006 lines 321-326). -/
def stripOneLeadingNewline (l : List Char) : List Char :=
  if (['\r', '\n'] : List Char).isPrefixOf l then l.drop 2
  else if (['\n'] : List Char).isPrefixOf l then l.drop 1
  else l

/-- Source `processExecOutput` (part_006 lines 306-385).  With no active
exec the chunk is returned unchanged.  Before the begin marker is seen,
search for it as a standalone line; if absent, retain the last
`max(markerTailLength, beginMarker.length)` characters as the scan tail;
if found, switch to started and continue on the remainder (the source's
recursive call, which — `started` now being true — lands in
`processStarted`). -/
def processExecOutput (active : Option ActiveExecState) (incoming : List Char) : ProcOut :=
  match active with
  | none => { state := none, display := incoming, resolved := none }
  | some a =>
    if a.started then processStarted a incoming
    else
      let combined := a.rawTail ++ incoming
      match findStandaloneMarkerLine combined a.beginMarker with
      | none =>
        let keepLen := max (getMarkerTailLength combined a.beginMarker) a.beginMarker.length
        { state := some { a with rawTail := combined.drop (combined.length - keepLen) }
          display := []
          resolved := none }
      | some beginIndex =>
        let afterBeginRaw := combined.drop (beginIndex + a.beginMarker.length)
        let afterBegin := stripOneLeadingNewline afterBeginRaw
        processStarted { a with started := true, rawTail := [] } afterBegin

/-- Feed a sequence of output chunks through the decoder, collecting every
dispatched result in order. -/
def feedChunks (active : Option ActiveExecState) :
    List (List Char) → Option ActiveExecState × List (List Char × TerminalExecResult)
  | [] => (active, [])
  | c :: cs =>
    let o := processExecOutput active c
    let r := feedChunks o.state cs
    (r.1, o.resolved.toList ++ r.2)

/-- An exec request as queued by `execHandler` (part_006 lines 20-23). -/
structure ExecRequest where
  requestId : List Char
  command : List Char
deriving Repr, DecidableEq

/-- Queue-level state of the terminal panel: the FIFO queue, the request
id the `activeExecRef` slot currently tracks, the number of
`startNextExec` continuations suspended at `await ensureSession()`
(part_006 line 433) and awaiting their microtask turn, plus the history
of dispatched (written-to-session) and resolved request ids, in order. -/
structure QueueState where
  queue : List ExecRequest
  activeRequest : Option (List Char)
  pendingStarts : Nat
  dispatched : List (List Char)
  resolvedIds : List (List Char)
deriving Repr, DecidableEq

/-- The synchronous prefix of source `startNextExec` (part_006 lines
430-433): return if `activeExecRef` holds a request or the queue is
empty; otherwise the function suspends at `await ensureSession()` and its
continuation joins the event loop's microtask queue.  The guard is not
re-checked after the await. -/
def startNextExecSync (s : QueueState) : QueueState :=
  if s.activeRequest.isSome then s
  else if s.queue.isEmpty then s
  else { s with pendingStarts := s.pendingStarts + 1 }

/-- The continuation of source `startNextExec` after `await
ensureSession()` (part_006 lines 434-456), on the happy path (session
live, write succeeds): shift the queue head — without re-checking
`activeExecRef` — store it as the ActiveExec (overwriting any in-flight
one, line 445) and write its wrapped command to the session.  The
continuation captures nothing; it reads the shared refs when it runs, so
a count of suspended continuations suffices. -/
def startNextExecResume (s : QueueState) : QueueState :=
  match s.queue with
  | [] => s
  | r :: rest =>
    { s with
      queue := rest
      activeRequest := some r.requestId
      dispatched := s.dispatched ++ [r.requestId] }

/-- Queue-affecting events: `execHandler` receiving an enqueue (part_006
lines 548-555), the event loop running the oldest suspended
`startNextExec` continuation (a microtask turn), and the done-marker
resolution of the current ActiveExec (part_006 lines 358-384), which
clears the slot and calls `startNextExec` again. -/
inductive QueueEvent where
  | enqueue (r : ExecRequest)
  | microtask
  | resolveDone
deriving Repr, DecidableEq

/-- One event execution.  Two `enqueue` events with no `microtask`
between them model two enqueues arriving in the same synchronous task —
the interleaving the source permits, since `execHandler` runs
`startNextExec` only up to its first await. -/
def queueStep (s : QueueState) : QueueEvent → QueueState
  | .enqueue r => startNextExecSync { s with queue := s.queue ++ [r] }
  | .microtask =>
    match s.pendingStarts with
    | 0 => s
    | k + 1 => startNextExecResume { s with pendingStarts := k }
  | .resolveDone =>
    match s.activeRequest with
    | none => s
    | some rId =>
      startNextExecSync { s with
        activeRequest := none
        resolvedIds := s.resolvedIds ++ [rId] }

/-- The panel starts with an empty queue, no ActiveExec and no suspended
continuation. -/
def initialQueueState : QueueState :=
  { queue := [], activeRequest := none, pendingStarts := 0, dispatched := [],
    resolvedIds := [] }

/-- Run a sequence of queue events from the initial state. -/
def runQueue (evs : List QueueEvent) : QueueState :=
  evs.foldl queueStep initialQueueState

/-- The failure result `failPendingExecRequests` dispatches
(part_006 lines 203-227): `success: false`, `code: null`, empty stderr,
the given error message, and — for the active request only — the stdout
captured so far. -/
def failedExecResult (message stdout : List Char) : TerminalExecResult :=
  { success := false, code := none, stdout := stdout, stderr := [], error := some message }

/-- Source `failPendingExecRequests` (part_006 lines 203-227): fail the
ActiveExec first (with its captured stdout), then drain the queue in
order, failing each entry; afterwards no ActiveExec and no queued
request remain. -/
def failPendingExecRequests (active : Option ActiveExecState) (queue : List ExecRequest)
    (message : List Char) : List (List Char × TerminalExecResult) :=
  (match active with
   | some a => [(a.requestId, failedExecResult message a.captured)]
   | none => []) ++ queue.map (fun r => (r.requestId, failedExecResult message []))

/-- The message built by the terminal-exit subscriber
(part_006 line 532): `Terminal session exited (<code or unknown>).` -/
def terminalExitMessage (code : Option Int) : List Char :=
  "Terminal session exited (".toList ++
    (match code with
     | some c => intDecimal c
     | none => "unknown".toList) ++ ").".toList

/-- Source `unsubscribeTerminalExit` handler (part_006 lines 523-534),
non-suppressed path: on session exit every pending request is failed with
the exit message and both the ActiveExec slot and the queue are cleared.
Returns (dispatched failure results, remaining active, remaining queue). -/
def onTerminalExit (active : Option ActiveExecState) (queue : List ExecRequest)
    (code : Option Int) :
    List (List Char × TerminalExecResult) × Option ActiveExecState × List ExecRequest :=
  (failPendingExecRequests active queue (terminalExitMessage code), none, [])

/-- `OUTPUT_PAUSE_WATERMARK` (part_006 line 11). -/
def OUTPUT_PAUSE_WATERMARK : Nat := 512 * 1024

/-- `OUTPUT_RESUME_WATERMARK` (part_006 line 12). -/
def OUTPUT_RESUME_WATERMARK : Nat := 128 * 1024

/-- The main-process side of one live terminal session
(part_010 line 1134), with ghost counters for the `pty.pause()` and
`pty.resume()` side effects. -/
structure MainTerminalSession where
  flowPaused : Bool
  pauseOps : Nat
  resumeOps : Nat
deriving Repr, DecidableEq

/-- Source `setTerminalSessionFlowControl` (part_010 lines 1184-1203) for
a live session: pause or resume the PTY only when the session is not
already in the requested state; always report success. -/
def setTerminalSessionFlowControl (s : MainTerminalSession) (paused : Bool) :
    MainTerminalSession × Bool :=
  if paused ∧ ¬s.flowPaused then
    ({ s with flowPaused := true, pauseOps := s.pauseOps + 1 }, true)
  else if ¬paused ∧ s.flowPaused then
    ({ s with flowPaused := false, resumeOps := s.resumeOps + 1 }, true)
  else (s, true)

/-- Renderer-side flow controller state: pending chunk sizes, the running
byte count, the renderer's paused flag and the live session it controls. -/
structure FlowState where
  pendingChunks : List Nat
  pendingBytes : Nat
  flowPaused : Bool
  session : MainTerminalSession
deriving Repr, DecidableEq

/-- Source `setFlowPaused` (part_006 lines 229-237): no-op when the
renderer already believes the requested state; otherwise call the main
process and record the new state on success. -/
def setFlowPaused (s : FlowState) (paused : Bool) : FlowState :=
  if s.flowPaused = paused then s
  else
    let r := setTerminalSessionFlowControl s.session paused
    if r.2 then { s with session := r.1, flowPaused := paused }
    else { s with session := r.1 }

/-- Source `enqueueOutput` (part_006 lines 266-274): ignore empty chunks,
append the chunk and its byte count, and issue a pause when unpaused and
the count reaches the high watermark. -/
def enqueueOutput (s : FlowState) (n : Nat) : FlowState :=
  if n = 0 then s
  else
    let s' := { s with
      pendingChunks := s.pendingChunks ++ [n]
      pendingBytes := s.pendingBytes + n }
    if ¬s'.flowPaused ∧ s'.pendingBytes ≥ OUTPUT_PAUSE_WATERMARK then setFlowPaused s' true
    else s'

/-- One completed terminal write inside the `pumpOutput` loop
(part_006 lines 239-264): the head chunk's bytes were subtracted before
the write; after the write (and likewise when the queue has drained),
issue a resume if paused and the count is at or below the low
watermark. -/
def completeOneWrite (s : FlowState) : FlowState :=
  match s.pendingChunks with
  | [] =>
    if s.flowPaused ∧ s.pendingBytes ≤ OUTPUT_RESUME_WATERMARK then setFlowPaused s false
    else s
  | n :: rest =>
    let s' := { s with pendingChunks := rest, pendingBytes := s.pendingBytes - n }
    if s'.flowPaused ∧ s'.pendingBytes ≤ OUTPUT_RESUME_WATERMARK then setFlowPaused s' false
    else s'

/-- Run a list of enqueued chunk sizes through the flow controller. -/
def runEnqueues (s : FlowState) (ns : List Nat) : FlowState :=
  ns.foldl enqueueOutput s

/-- Run `k` completed writes through the flow controller. -/
def runWrites (s : FlowState) : Nat → FlowState
  | 0 => s
  | k + 1 => runWrites (completeOneWrite s) k

/-- JS `String.trim()` (ASCII whitespace). -/
def jsTrim (l : List Char) : List Char :=
  ((l.dropWhile isSpaceChar).reverse.dropWhile isSpaceChar).reverse

/-- `process.env.APPPAD_TERMINAL_SHELL || process.env.SHELL || '/bin/zsh'`
(part_010 lines 1111 and 1118); an unset or empty environment variable is
modelled as the empty string, matching JS falsiness. -/
def envDefaultShell (envApppadShell envShell : List Char) : List Char :=
  if envApppadShell ≠ [] then envApppadShell
  else if envShell ≠ [] then envShell
  else "/bin/zsh".toList

/-- `candidate.split('/').pop()?.toLowerCase() || ''` (part_010
line 1113). -/
def shellBasename (candidate : List Char) : List Char :=
  ((candidate.splitOn '/').getLastD []).map Char.toLower

/-- Source `normalizeTerminalShell` (part_010 lines 1109-1119): the path
actually spawned for a requested shell value. -/
def normalizeTerminalShell (rawShell envApppadShell envShell : List Char) : List Char :=
  let candidate := jsTrim rawShell
  if candidate = [] then envDefaultShell envApppadShell envShell
  else
    let basename := shellBasename candidate
    if basename = "zsh".toList then "/bin/zsh".toList
    else if basename = "bash".toList then "/bin/bash".toList
    else if candidate = "/bin/zsh".toList ∨ candidate = "/bin/bash".toList then candidate
    else envDefaultShell envApppadShell envShell

/-! ### Helper lemmas -/

theorem processExecOutput_of_started (a : ActiveExecState) (incoming : List Char)
    (hstart : a.started = true) :
    processExecOutput (some a) incoming = processStarted a incoming := by
  simp only [processExecOutput, hstart, if_true]

theorem processExecOutput_begin_found (a : ActiveExecState) (incoming : List Char) (i : Nat)
    (hstart : a.started = false)
    (hfound : findStandaloneMarkerLine (a.rawTail ++ incoming) a.beginMarker = some i) :
    processExecOutput (some a) incoming =
      processStarted { a with started := true, rawTail := [] }
        (stripOneLeadingNewline ((a.rawTail ++ incoming).drop (i + a.beginMarker.length))) := by
  simp only [processExecOutput, hstart, Bool.false_eq_true, if_false, hfound]

theorem processExecOutput_begin_missing (a : ActiveExecState) (incoming : List Char)
    (hstart : a.started = false)
    (hnone : findStandaloneMarkerLine (a.rawTail ++ incoming) a.beginMarker = none) :
    processExecOutput (some a) incoming =
      { state := some { a with
          rawTail := (a.rawTail ++ incoming).drop ((a.rawTail ++ incoming).length -
            max (getMarkerTailLength (a.rawTail ++ incoming) a.beginMarker)
              a.beginMarker.length) }
        display := []
        resolved := none } := by
  simp only [processExecOutput, hstart, Bool.false_eq_true, if_false, hnone]

theorem processStarted_done (a : ActiveExecState) (incoming : List Char)
    (mi : Nat) (c : Int) (g : Nat)
    (hdone : findDoneMatch (a.rawTail ++ incoming) a.doneMarker = some (mi, c, g)) :
    processStarted a incoming =
      (let combined := a.rawTail ++ incoming
      let f := filterExecNoiseChunk a.beginMarker a.doneMarker a.filterCarry (combined.take mi)
      let captured2 :=
        if f.2 ≠ [] ∧ ¬shouldFilterExecNoiseLine f.2 a.beginMarker a.doneMarker = true
        then (a.captured ++ f.1) ++ f.2 else a.captured ++ f.1
      { state := none
        display := f.1 ++ combined.drop (mi + (a.doneMarker.length + g + 2))
        resolved := some (a.requestId,
          if c = 0 then
            { success := true, code := some 0, stdout := captured2, stderr := [], error := none }
          else
            { success := false, code := some c, stdout := captured2
              stderr := exitCodeMessage c, error := some (exitCodeMessage c) }) }) := by
  simp only [processStarted, hdone]


/-! ### Claim theorems -/

/-- C10: while no ActiveExec exists, the exec-output decoder is the
identity on every incoming chunk: the chunk is displayed unchanged and
nothing is captured, filtered or buffered. -/
theorem no_active_decoder_identity (incoming : List Char) :
    processExecOutput none incoming =
      { state := none, display := incoming, resolved := none } :=
  rfl

/-- C5 counterexample: before the begin marker is seen, feeding the chunk
`hello` (which contains no begin-marker line) retains the whole
5-character buffer as the tail, even though that tail is neither empty
nor a prefix of the begin marker — refuting the claim that the retained
tail is always the maximal marker-prefix suffix of the buffer. -/
theorem begin_tail_not_marker_prefix :
    (processExecOutput (some (freshActiveExec ['r'])) "hello".toList).state =
      some { freshActiveExec ['r'] with rawTail := "hello".toList } ∧
    ("hello".toList).isPrefixOf (beginMarkerOf ['r']) = false ∧
    "hello".toList ≠ ([] : List Char) := by
  decide

/-- C5 (amended): while the begin marker is unseen and a chunk contains no
standalone begin-marker line, the retained tail is the suffix of the
combined buffer of length `min combined.length
(max (getMarkerTailLength combined beginMarker) beginMarker.length)` —
at least the full marker length, capped by the buffer — everything before
it is discarded, nothing is captured and nothing displayed. -/
theorem begin_tail_retention (a : ActiveExecState) (incoming : List Char)
    (hstart : a.started = false)
    (hnone : findStandaloneMarkerLine (a.rawTail ++ incoming) a.beginMarker = none) :
    ∃ st, (processExecOutput (some a) incoming).state = some st ∧
      st.rawTail <:+ (a.rawTail ++ incoming) ∧
      st.rawTail.length = min (a.rawTail ++ incoming).length
        (max (getMarkerTailLength (a.rawTail ++ incoming) a.beginMarker)
          a.beginMarker.length) ∧
      st.captured = a.captured ∧
      (processExecOutput (some a) incoming).display = [] := by
  rw [processExecOutput_begin_missing a incoming hstart hnone]
  refine ⟨_, rfl, List.drop_suffix _ _, ?_, rfl, rfl⟩
  rw [List.length_drop]
  omega

/-- Witness for the amended C5 theorem at a concrete input. -/
theorem begin_tail_retention_witness :
    ∃ st, (processExecOutput (some (freshActiveExec ['w'])) "echo".toList).state = some st ∧
      st.rawTail <:+ ((freshActiveExec ['w']).rawTail ++ "echo".toList) ∧
      st.rawTail.length = min ((freshActiveExec ['w']).rawTail ++ "echo".toList).length
        (max (getMarkerTailLength ((freshActiveExec ['w']).rawTail ++ "echo".toList)
          (freshActiveExec ['w']).beginMarker) (freshActiveExec ['w']).beginMarker.length) ∧
      st.captured = (freshActiveExec ['w']).captured ∧
      (processExecOutput (some (freshActiveExec ['w'])) "echo".toList).display = [] :=
  begin_tail_retention (freshActiveExec ['w']) "echo".toList (by decide) (by decide)

/-- C8 counterexample: a done marker carrying exit code 7 resolves with a
non-empty stderr (the synthesized error message), refuting the claim that
the resolved result always has empty stderr. -/
theorem done_resolution_stderr_not_empty :
    ((processStarted { freshActiveExec ['r'] with started := true }
        (doneMarkerOf ['r'] ++ "7__".toList)).resolved.map (fun p => p.2.stderr)) =
      some "Command exited with code 7.".toList ∧
    "Command exited with code 7.".toList ≠ ([] : List Char) := by
  decide

/-- C8 (amended): whenever the done pattern matches, the request resolves
with `success = (exitCode == 0)`, `code = exitCode`, stdout equal to the
captured filtered text (previous capture, plus the filtered text before
the marker, plus a trailing non-noise partial line); stderr is empty and
no error is set exactly when the exit code is 0, while a non-zero exit
code synthesizes `Command exited with code N.` into both stderr and
error. -/
theorem done_resolution_fields (a : ActiveExecState) (incoming : List Char)
    (markerIndex : Nat) (parsedCode : Int) (groupLen : Nat)
    (hstart : a.started = true)
    (hdone : findDoneMatch (a.rawTail ++ incoming) a.doneMarker =
      some (markerIndex, parsedCode, groupLen)) :
    ∃ r, (processExecOutput (some a) incoming).resolved = some (a.requestId, r) ∧
      r.success = decide (parsedCode = 0) ∧
      r.code = some parsedCode ∧
      r.stdout =
        (let f := filterExecNoiseChunk a.beginMarker a.doneMarker a.filterCarry
            ((a.rawTail ++ incoming).take markerIndex)
        if f.2 ≠ [] ∧ ¬shouldFilterExecNoiseLine f.2 a.beginMarker a.doneMarker = true
        then (a.captured ++ f.1) ++ f.2 else a.captured ++ f.1) ∧
      r.stderr = (if parsedCode = 0 then [] else exitCodeMessage parsedCode) ∧
      r.error = (if parsedCode = 0 then none else some (exitCodeMessage parsedCode)) := by
  rw [processExecOutput_of_started a incoming hstart,
    processStarted_done a incoming markerIndex parsedCode groupLen hdone]
  by_cases hc : parsedCode = 0
  · subst hc
    refine ⟨_, rfl, ?_, ?_, ?_, ?_, ?_⟩ <;> simp
  · refine ⟨_, rfl, ?_, ?_, ?_, ?_, ?_⟩ <;> simp [hc]

/-- Witness for the amended C8 theorem at a concrete input. -/
theorem done_resolution_fields_witness :
    ∃ r, (processExecOutput (some { freshActiveExec ['w'] with started := true })
        (doneMarkerOf ['w'] ++ "0__".toList)).resolved =
      some (({ freshActiveExec ['w'] with started := true } : ActiveExecState).requestId, r) ∧
      r.success = decide ((0 : Int) = 0) ∧
      r.code = some (0 : Int) ∧
      r.stdout =
        (let f := filterExecNoiseChunk
            ({ freshActiveExec ['w'] with started := true } : ActiveExecState).beginMarker
            ({ freshActiveExec ['w'] with started := true } : ActiveExecState).doneMarker
            ({ freshActiveExec ['w'] with started := true } : ActiveExecState).filterCarry
            ((({ freshActiveExec ['w'] with started := true } : ActiveExecState).rawTail ++
              (doneMarkerOf ['w'] ++ "0__".toList)).take 0)
        if f.2 ≠ [] ∧ ¬shouldFilterExecNoiseLine f.2
            ({ freshActiveExec ['w'] with started := true } : ActiveExecState).beginMarker
            ({ freshActiveExec ['w'] with started := true } : ActiveExecState).doneMarker = true
        then (({ freshActiveExec ['w'] with started := true } : ActiveExecState).captured ++ f.1) ++ f.2
        else ({ freshActiveExec ['w'] with started := true } : ActiveExecState).captured ++ f.1) ∧
      r.stderr = (if (0 : Int) = 0 then [] else exitCodeMessage 0) ∧
      r.error = (if (0 : Int) = 0 then none else some (exitCodeMessage 0)) :=
  done_resolution_fields { freshActiveExec ['w'] with started := true }
    (doneMarkerOf ['w'] ++ "0__".toList) 0 0 1 rfl (by decide)

/-- C2 (code bug): the byte sequence
`beginMarker \n hi\n doneMarker 0__` resolves with exit code 0 and stdout
`hi\n` when fed as one chunk, but when split into the two chunks
`… doneMarker 0` and `__` — a split between the exit-code digits and the
terminator — the done marker is lost (the retained tail keeps at most a
proper prefix of the marker) and the request never resolves. -/
theorem chunk_split_changes_result :
    (beginMarkerOf ['r'] ++ "\nhi\n".toList ++ doneMarkerOf ['r'] ++ "0".toList) ++
        "__".toList =
      beginMarkerOf ['r'] ++ "\nhi\n".toList ++ doneMarkerOf ['r'] ++ "0__".toList ∧
    (feedChunks (some (freshActiveExec ['r']))
        [beginMarkerOf ['r'] ++ "\nhi\n".toList ++ doneMarkerOf ['r'] ++ "0__".toList]).2 =
      [(['r'], ({ success := true, code := some 0, stdout := "hi\n".toList,
                  stderr := [], error := none } : TerminalExecResult))] ∧
    (feedChunks (some (freshActiveExec ['r']))
        [beginMarkerOf ['r'] ++ "\nhi\n".toList ++ doneMarkerOf ['r'] ++ "0".toList,
          "__".toList]).2 = [] := by
  decide


/-- C4: when the session exits with one ActiveExec and M queued requests
outstanding, all M+1 requests resolve with a failure result whose error
message references the session exit (active first, then the queue in FIFO
order); no ActiveExec or queued request survives, so none is retried. -/
theorem session_exit_fails_all (a : ActiveExecState) (queue : List ExecRequest)
    (code : Option Int) :
    (onTerminalExit (some a) queue code).1.length = queue.length + 1 ∧
    (onTerminalExit (some a) queue code).1.map Prod.fst =
      a.requestId :: queue.map ExecRequest.requestId ∧
    (∀ p ∈ (onTerminalExit (some a) queue code).1, p.2.success = false ∧ p.2.code = none ∧
      p.2.error = some (terminalExitMessage code)) ∧
    (onTerminalExit (some a) queue code).2.1 = none ∧
    (onTerminalExit (some a) queue code).2.2 = [] ∧
    "Terminal session exited".toList <+: terminalExitMessage code := by
  refine ⟨?_, ?_, ?_, rfl, rfl, ?_⟩
  · simp [onTerminalExit, failPendingExecRequests, Nat.add_comm]
  · simp [onTerminalExit, failPendingExecRequests]
  · intro p hp
    simp only [onTerminalExit, failPendingExecRequests, List.mem_append,
      List.mem_singleton, List.mem_map] at hp
    rcases hp with h | ⟨r, _, h⟩
    · subst h; exact ⟨rfl, rfl, rfl⟩
    · subst h; exact ⟨rfl, rfl, rfl⟩
  · have h : "Terminal session exited".toList <+: "Terminal session exited (".toList := by
      decide
    unfold terminalExitMessage
    rw [List.append_assoc]
    exact h.trans (List.prefix_append _ _)

/-- Witness for the C4 theorem at a concrete exit. -/
theorem session_exit_fails_all_witness :
    (onTerminalExit (some (freshActiveExec ['a'])) [⟨['b'], ['l', 's']⟩] (some 3)).1.length =
      ([⟨['b'], ['l', 's']⟩] : List ExecRequest).length + 1 ∧
    (onTerminalExit (some (freshActiveExec ['a'])) [⟨['b'], ['l', 's']⟩] (some 3)).1.map
        Prod.fst =
      (freshActiveExec ['a']).requestId ::
        ([⟨['b'], ['l', 's']⟩] : List ExecRequest).map ExecRequest.requestId ∧
    (∀ p ∈ (onTerminalExit (some (freshActiveExec ['a'])) [⟨['b'], ['l', 's']⟩] (some 3)).1,
      p.2.success = false ∧ p.2.code = none ∧
      p.2.error = some (terminalExitMessage (some 3))) ∧
    (onTerminalExit (some (freshActiveExec ['a'])) [⟨['b'], ['l', 's']⟩] (some 3)).2.1 = none ∧
    (onTerminalExit (some (freshActiveExec ['a'])) [⟨['b'], ['l', 's']⟩] (some 3)).2.2 = [] ∧
    "Terminal session exited".toList <+: terminalExitMessage (some 3) :=
  session_exit_fails_all (freshActiveExec ['a']) [⟨['b'], ['l', 's']⟩] (some 3)

theorem normalizeTerminalShell_cases (rawShell envApppadShell envShell : List Char) :
    normalizeTerminalShell rawShell envApppadShell envShell =
      (if jsTrim rawShell = [] then envDefaultShell envApppadShell envShell
       else if shellBasename (jsTrim rawShell) = "zsh".toList then "/bin/zsh".toList
       else if shellBasename (jsTrim rawShell) = "bash".toList then "/bin/bash".toList
       else envDefaultShell envApppadShell envShell) := by
  simp only [normalizeTerminalShell]
  split_ifs with h1 h2 h3 h4 <;> try rfl
  rcases h4 with h | h
  · exact absurd (by rw [h]; decide) h2
  · exact absurd (by rw [h]; decide) h3

/-- C9: the spawned shell path is validated against the allow-list of
shell basenames (`zsh`, `bash`): a recognized basename maps to the
canonical path, while an empty or unrecognized value falls back to the
environment-configured default rather than being spawned verbatim — the
result is always `/bin/zsh`, `/bin/bash`, or that default. -/
theorem shell_allowlist_normalization (rawShell envApppadShell envShell : List Char) :
    (normalizeTerminalShell rawShell envApppadShell envShell = "/bin/zsh".toList ∨
      normalizeTerminalShell rawShell envApppadShell envShell = "/bin/bash".toList ∨
      normalizeTerminalShell rawShell envApppadShell envShell =
        envDefaultShell envApppadShell envShell) ∧
    (jsTrim rawShell = [] →
      normalizeTerminalShell rawShell envApppadShell envShell =
        envDefaultShell envApppadShell envShell) ∧
    (shellBasename (jsTrim rawShell) = "zsh".toList →
      normalizeTerminalShell rawShell envApppadShell envShell = "/bin/zsh".toList) ∧
    (shellBasename (jsTrim rawShell) = "bash".toList →
      normalizeTerminalShell rawShell envApppadShell envShell = "/bin/bash".toList) ∧
    (jsTrim rawShell ≠ [] → shellBasename (jsTrim rawShell) ≠ "zsh".toList →
      shellBasename (jsTrim rawShell) ≠ "bash".toList →
      normalizeTerminalShell rawShell envApppadShell envShell =
        envDefaultShell envApppadShell envShell) := by
  simp only [normalizeTerminalShell_cases]
  split_ifs with h1 h2 h3
  · exact ⟨Or.inr (Or.inr rfl), fun _ => rfl,
      fun hb => absurd hb (by rw [h1]; decide),
      fun hb => absurd hb (by rw [h1]; decide),
      fun hne _ _ => absurd h1 hne⟩
  · exact ⟨Or.inl rfl, fun h => absurd h h1, fun _ => rfl,
      fun hb => absurd (h2 ▸ hb : ("zsh".toList : List Char) = "bash".toList) (by decide),
      fun _ hz _ => absurd h2 hz⟩
  · exact ⟨Or.inr (Or.inl rfl), fun h => absurd h h1, fun hb => absurd hb h2,
      fun _ => rfl, fun _ _ hb => absurd h3 hb⟩
  · exact ⟨Or.inr (Or.inr rfl), fun h => absurd h h1, fun hb => absurd hb h2,
      fun hb => absurd hb h3, fun _ _ _ => rfl⟩

/-- Witness for the C9 theorem at a concrete unrecognized shell. -/
theorem shell_allowlist_normalization_witness :
    (normalizeTerminalShell "/usr/bin/fish".toList "/bin/zsh".toList [] = "/bin/zsh".toList ∨
      normalizeTerminalShell "/usr/bin/fish".toList "/bin/zsh".toList [] = "/bin/bash".toList ∨
      normalizeTerminalShell "/usr/bin/fish".toList "/bin/zsh".toList [] =
        envDefaultShell "/bin/zsh".toList []) ∧
    (jsTrim "/usr/bin/fish".toList = [] →
      normalizeTerminalShell "/usr/bin/fish".toList "/bin/zsh".toList [] =
        envDefaultShell "/bin/zsh".toList []) ∧
    (shellBasename (jsTrim "/usr/bin/fish".toList) = "zsh".toList →
      normalizeTerminalShell "/usr/bin/fish".toList "/bin/zsh".toList [] = "/bin/zsh".toList) ∧
    (shellBasename (jsTrim "/usr/bin/fish".toList) = "bash".toList →
      normalizeTerminalShell "/usr/bin/fish".toList "/bin/zsh".toList [] = "/bin/bash".toList) ∧
    (jsTrim "/usr/bin/fish".toList ≠ [] →
      shellBasename (jsTrim "/usr/bin/fish".toList) ≠ "zsh".toList →
      shellBasename (jsTrim "/usr/bin/fish".toList) ≠ "bash".toList →
      normalizeTerminalShell "/usr/bin/fish".toList "/bin/zsh".toList [] =
        envDefaultShell "/bin/zsh".toList []) :=
  shell_allowlist_normalization "/usr/bin/fish".toList "/bin/zsh".toList []


theorem splitLines_flatten (l : List Char) :
    (splitLines l).1.flatten ++ (splitLines l).2 = l := by
  induction l with
  | nil => rfl
  | cons c rest ih =>
    simp only [splitLines]
    by_cases hc : c = '\n'
    · subst hc
      simp only [if_true, List.flatten_cons, List.cons_append, List.nil_append,
        List.append_assoc]
      rw [ih]
    · rw [if_neg hc]
      cases hp : (splitLines rest).1 with
      | nil =>
        rw [hp] at ih
        simp only [List.flatten_nil, List.nil_append] at ih
        simp [ih]
      | cons lh lt =>
        rw [hp] at ih
        simp only [List.flatten_cons, List.cons_append, List.append_assoc] at ih ⊢
        rw [ih]

theorem stripTrailingNewline_sublist (l : List Char) :
    (stripTrailingNewline l).Sublist l := by
  unfold stripTrailingNewline
  split_ifs
  · exact (List.dropLast_sublist _).trans (List.dropLast_sublist l)
  · exact List.dropLast_sublist l
  · exact List.Sublist.refl l

theorem shouldFilter_blank (l bm dm : List Char) (hb : l.all isSpaceChar = true) :
    shouldFilterExecNoiseLine l bm dm = false := by
  have hall : (stripTrailingNewline l).all isSpaceChar = true := by
    rw [List.all_eq_true] at hb ⊢
    intro x hx
    exact hb x ((stripTrailingNewline_sublist l).subset hx)
  simp only [shouldFilterExecNoiseLine, hall, if_true]

theorem shouldFilter_of_contains (l bm dm needle : List Char) (c : Char)
    (hc : c ∈ needle) (hcs : isSpaceChar c = false)
    (hw : needle = execCodeAssignText ∨ needle = execPrintfText ∨ needle = bm ∨ needle = dm)
    (hcont : containsSeq (stripTrailingNewline l) needle = true) :
    shouldFilterExecNoiseLine l bm dm = true := by
  have hmem : c ∈ stripTrailingNewline l := by
    have hinf : needle <:+: stripTrailingNewline l := of_decide_eq_true hcont
    exact hinf.subset hc
  have hall : ¬(stripTrailingNewline l).all isSpaceChar = true := by
    intro h
    have := List.all_eq_true.mp h c hmem
    rw [hcs] at this
    cases this
  simp only [shouldFilterExecNoiseLine, if_neg hall]
  rcases hw with h | h | h | h <;> subst h <;> split_ifs <;> rfl

/-- C6: the exec noise filter removes exactly the noise lines: the
visible output is the concatenation of the non-noise complete lines (the
incomplete remainder being carried), output with no noise lines passes
through as the identity, all-whitespace (blank) lines are never noise,
and any line holding the wrapper's begin/done marker text or its
exit-code-capture assignment text is noise. -/
theorem noise_filter_exactness (requestId chunk : List Char) :
    (filterExecNoiseChunk (beginMarkerOf requestId) (doneMarkerOf requestId) [] chunk).1 =
      ((splitLines chunk).1.filter (fun l =>
        !shouldFilterExecNoiseLine l (beginMarkerOf requestId)
          (doneMarkerOf requestId))).flatten ∧
    (filterExecNoiseChunk (beginMarkerOf requestId) (doneMarkerOf requestId) [] chunk).2 =
      (splitLines chunk).2 ∧
    ((∀ l ∈ (splitLines chunk).1,
        shouldFilterExecNoiseLine l (beginMarkerOf requestId) (doneMarkerOf requestId) =
          false) →
      (filterExecNoiseChunk (beginMarkerOf requestId) (doneMarkerOf requestId) [] chunk).1 ++
        (filterExecNoiseChunk (beginMarkerOf requestId) (doneMarkerOf requestId) []
          chunk).2 = chunk) ∧
    (∀ l : List Char, l.all isSpaceChar = true →
      shouldFilterExecNoiseLine l (beginMarkerOf requestId) (doneMarkerOf requestId) =
        false) ∧
    (∀ l : List Char,
      containsSeq (stripTrailingNewline l) (beginMarkerOf requestId) = true →
      shouldFilterExecNoiseLine l (beginMarkerOf requestId) (doneMarkerOf requestId) =
        true) ∧
    (∀ l : List Char,
      containsSeq (stripTrailingNewline l) (doneMarkerOf requestId) = true →
      shouldFilterExecNoiseLine l (beginMarkerOf requestId) (doneMarkerOf requestId) =
        true) ∧
    (∀ l : List Char, containsSeq (stripTrailingNewline l) execCodeAssignText = true →
      shouldFilterExecNoiseLine l (beginMarkerOf requestId) (doneMarkerOf requestId) =
        true) := by
  refine ⟨rfl, rfl, ?_, ?_, ?_, ?_, ?_⟩
  · intro h
    show ((splitLines ([] ++ chunk)).1.filter _).flatten ++ (splitLines ([] ++ chunk)).2 =
      chunk
    rw [List.nil_append]
    rw [List.filter_eq_self.mpr (fun l hl => by rw [h l hl]; rfl)]
    exact splitLines_flatten chunk
  · exact fun l hb => shouldFilter_blank l _ _ hb
  · intro l hcont
    have hA : 'A' ∈ beginMarkerOf requestId := by
      have : 'A' ∈ "__APPPAD_EXEC_BEGIN__".toList := by decide
      exact List.mem_append.mpr (Or.inl (List.mem_append.mpr (Or.inl this)))
    exact shouldFilter_of_contains l _ _ _ 'A' hA (by decide)
      (Or.inr (Or.inr (Or.inl rfl))) hcont
  · intro l hcont
    have hA : 'A' ∈ doneMarkerOf requestId := by
      have : 'A' ∈ "__APPPAD_EXEC_DONE__".toList := by decide
      exact List.mem_append.mpr (Or.inl (List.mem_append.mpr (Or.inl this)))
    exact shouldFilter_of_contains l _ _ _ 'A' hA (by decide)
      (Or.inr (Or.inr (Or.inr rfl))) hcont
  · intro l hcont
    have ha : 'a' ∈ execCodeAssignText := by decide
    exact shouldFilter_of_contains l _ _ _ 'a' ha (by decide) (Or.inl rfl) hcont

/-- Witness for the C6 theorem: a clean chunk passes through the filter
unchanged. -/
theorem noise_filter_exactness_witness :
    (filterExecNoiseChunk (beginMarkerOf ['w']) (doneMarkerOf ['w']) [] "ok\n".toList).1 ++
      (filterExecNoiseChunk (beginMarkerOf ['w']) (doneMarkerOf ['w']) [] "ok\n".toList).2 =
      "ok\n".toList :=
  (noise_filter_exactness ['w'] "ok\n".toList).2.2.1 (by decide)


/-- C3 (code bug): two enqueues arriving in the same synchronous task
both pass the `activeExecRef` guard before either suspended
`startNextExec` continuation runs, because the guard (part_006 line 430)
is not re-checked after `await ensureSession()` (line 433).  When the two
continuations then run, both shift and write: the second wrapped command
is dispatched while the first is still in flight and unresolved, the
first request's ActiveExec tracking is overwritten, and the dispatch
history is no longer the resolved history plus the single in-flight
request — refuting the claimed at-most-one-ActiveExec invariant.  When
the continuation drains before the next enqueue (separate event-loop
turns), the second request instead stays queued behind the ActiveExec
and is dispatched only after resolution, as the claim describes. -/
theorem enqueue_race_double_dispatch :
    (runQueue [QueueEvent.enqueue ⟨['a'], ['x']⟩, QueueEvent.enqueue ⟨['b'], ['y']⟩,
        QueueEvent.microtask, QueueEvent.microtask]).dispatched = [['a'], ['b']] ∧
    (runQueue [QueueEvent.enqueue ⟨['a'], ['x']⟩, QueueEvent.enqueue ⟨['b'], ['y']⟩,
        QueueEvent.microtask, QueueEvent.microtask]).resolvedIds = [] ∧
    (runQueue [QueueEvent.enqueue ⟨['a'], ['x']⟩, QueueEvent.enqueue ⟨['b'], ['y']⟩,
        QueueEvent.microtask, QueueEvent.microtask]).activeRequest = some ['b'] ∧
    (runQueue [QueueEvent.enqueue ⟨['a'], ['x']⟩, QueueEvent.enqueue ⟨['b'], ['y']⟩,
        QueueEvent.microtask, QueueEvent.microtask]).dispatched ≠
      (runQueue [QueueEvent.enqueue ⟨['a'], ['x']⟩, QueueEvent.enqueue ⟨['b'], ['y']⟩,
          QueueEvent.microtask, QueueEvent.microtask]).resolvedIds ++
        (runQueue [QueueEvent.enqueue ⟨['a'], ['x']⟩, QueueEvent.enqueue ⟨['b'], ['y']⟩,
            QueueEvent.microtask, QueueEvent.microtask]).activeRequest.toList ∧
    (runQueue [QueueEvent.enqueue ⟨['a'], ['x']⟩, QueueEvent.microtask,
        QueueEvent.enqueue ⟨['b'], ['y']⟩, QueueEvent.microtask]).dispatched = [['a']] ∧
    (runQueue [QueueEvent.enqueue ⟨['a'], ['x']⟩, QueueEvent.microtask,
        QueueEvent.enqueue ⟨['b'], ['y']⟩, QueueEvent.microtask]).activeRequest =
      some ['a'] ∧
    (runQueue [QueueEvent.enqueue ⟨['a'], ['x']⟩, QueueEvent.microtask,
        QueueEvent.enqueue ⟨['b'], ['y']⟩, QueueEvent.microtask]).queue =
      [⟨['b'], ['y']⟩] ∧
    (runQueue [QueueEvent.enqueue ⟨['a'], ['x']⟩, QueueEvent.microtask,
        QueueEvent.enqueue ⟨['b'], ['y']⟩, QueueEvent.microtask,
        QueueEvent.resolveDone, QueueEvent.microtask]).dispatched = [['a'], ['b']] ∧
    (runQueue [QueueEvent.enqueue ⟨['a'], ['x']⟩, QueueEvent.microtask,
        QueueEvent.enqueue ⟨['b'], ['y']⟩, QueueEvent.microtask,
        QueueEvent.resolveDone, QueueEvent.microtask]).resolvedIds = [['a']] ∧
    (runQueue [QueueEvent.enqueue ⟨['a'], ['x']⟩, QueueEvent.microtask,
        QueueEvent.enqueue ⟨['b'], ['y']⟩, QueueEvent.microtask,
        QueueEvent.resolveDone, QueueEvent.microtask]).activeRequest = some ['b'] := by
  decide


theorem enqueueOutput_paused (s : FlowState) (n : Nat)
    (h : s.flowPaused = true) :
    (enqueueOutput s n).flowPaused = true ∧
    (enqueueOutput s n).session = s.session := by
  unfold enqueueOutput
  by_cases hn : n = 0
  · simp [hn, h]
  · simp [hn, h]

theorem runEnqueues_paused (ns : List Nat) : ∀ (s : FlowState), s.flowPaused = true →
    (runEnqueues s ns).flowPaused = true ∧
    (runEnqueues s ns).session = s.session := by
  induction ns with
  | nil => exact fun s h => ⟨h, rfl⟩
  | cons n ns ih =>
    intro s h
    obtain ⟨h1, h2⟩ := enqueueOutput_paused s n h
    obtain ⟨h3, h4⟩ := ih (enqueueOutput s n) h1
    exact ⟨h3, h4.trans h2⟩

theorem enqueueOutput_unpaused (s : FlowState) (n : Nat)
    (h : s.flowPaused = false) (hs : s.session.flowPaused = false) :
    if OUTPUT_PAUSE_WATERMARK ≤ s.pendingBytes + n ∧ n ≠ 0 then
      (enqueueOutput s n).flowPaused = true ∧
      (enqueueOutput s n).session.flowPaused = true ∧
      (enqueueOutput s n).session.pauseOps = s.session.pauseOps + 1 ∧
      (enqueueOutput s n).session.resumeOps = s.session.resumeOps ∧
      (enqueueOutput s n).pendingBytes = s.pendingBytes + n
    else
      (enqueueOutput s n).flowPaused = false ∧
      (enqueueOutput s n).session = s.session ∧
      (enqueueOutput s n).pendingBytes = s.pendingBytes + n := by
  by_cases hn : n = 0
  · subst hn
    rw [if_neg (by simp)]
    refine ⟨h, rfl, ?_⟩
    simp [enqueueOutput]
  · by_cases hw : OUTPUT_PAUSE_WATERMARK ≤ s.pendingBytes + n
    · rw [if_pos ⟨hw, hn⟩]
      simp [enqueueOutput, hn, h, hs, hw, setFlowPaused, setTerminalSessionFlowControl]
    · rw [if_neg (by tauto)]
      simp [enqueueOutput, hn, h, hs, hw, setFlowPaused, setTerminalSessionFlowControl]

theorem runEnqueues_unpaused (ns : List Nat) : ∀ (s : FlowState),
    s.flowPaused = false → s.session.flowPaused = false →
    s.pendingBytes < OUTPUT_PAUSE_WATERMARK →
    (runEnqueues s ns).session.pauseOps = s.session.pauseOps +
      (if OUTPUT_PAUSE_WATERMARK ≤ s.pendingBytes + ns.sum then 1 else 0) ∧
    (runEnqueues s ns).session.resumeOps = s.session.resumeOps := by
  induction ns with
  | nil =>
    intro s h hs hb
    rw [if_neg (by simpa using hb)]
    exact ⟨rfl, rfl⟩
  | cons n ns ih =>
    intro s h hs hb
    have hstep := enqueueOutput_unpaused s n h hs
    have hrun : runEnqueues s (n :: ns) = runEnqueues (enqueueOutput s n) ns := rfl
    by_cases hcross : OUTPUT_PAUSE_WATERMARK ≤ s.pendingBytes + n ∧ n ≠ 0
    · rw [if_pos hcross] at hstep
      obtain ⟨hf, _, hp, hr, hb'⟩ := hstep
      obtain ⟨hpf, hsess⟩ := runEnqueues_paused ns (enqueueOutput s n) hf
      rw [hrun]
      constructor
      · rw [hsess, hp, if_pos (by simp only [List.sum_cons]; omega)]
      · rw [hsess, hr]
    · rw [if_neg hcross] at hstep
      obtain ⟨hf, hsess, hb'⟩ := hstep
      have hb2 : (enqueueOutput s n).pendingBytes < OUTPUT_PAUSE_WATERMARK := by
        rw [hb']
        omega
      obtain ⟨hp, hr⟩ := ih (enqueueOutput s n) hf (by rw [hsess]; exact hs) hb2
      rw [hrun]
      constructor
      · rw [hp, hsess, hb']
        have hiff : (OUTPUT_PAUSE_WATERMARK ≤ s.pendingBytes + n + ns.sum) ↔
            (OUTPUT_PAUSE_WATERMARK ≤ s.pendingBytes + (n :: ns).sum) := by
          simp only [List.sum_cons]
          omega
        rw [if_congr hiff rfl rfl]
      · rw [hr, hsess]

theorem completeOneWrite_above (s : FlowState) (n : Nat) (rest : List Nat)
    (h : s.flowPaused = true) (hchunks : s.pendingChunks = n :: rest)
    (hb : OUTPUT_RESUME_WATERMARK < s.pendingBytes - n) :
    (completeOneWrite s).flowPaused = true ∧
    (completeOneWrite s).session = s.session := by
  simp only [completeOneWrite, hchunks]
  rw [if_neg (by simp; omega)]
  exact ⟨h, rfl⟩

theorem completeOneWrite_resume (s : FlowState) (n : Nat) (rest : List Nat)
    (h : s.flowPaused = true) (hs : s.session.flowPaused = true)
    (hchunks : s.pendingChunks = n :: rest)
    (hb : s.pendingBytes - n ≤ OUTPUT_RESUME_WATERMARK) :
    (completeOneWrite s).flowPaused = false ∧
    (completeOneWrite s).session.resumeOps = s.session.resumeOps + 1 ∧
    (completeOneWrite s).session.pauseOps = s.session.pauseOps := by
  simp only [completeOneWrite, hchunks]
  rw [if_pos ⟨h, hb⟩]
  simp [setFlowPaused, setTerminalSessionFlowControl, h, hs]

theorem completeOneWrite_unpaused (s : FlowState) (h : s.flowPaused = false) :
    (completeOneWrite s).flowPaused = false ∧
    (completeOneWrite s).session = s.session := by
  cases hchunks : s.pendingChunks with
  | nil =>
    simp only [completeOneWrite, hchunks]
    rw [if_neg (by simp [h])]
    exact ⟨h, rfl⟩
  | cons n rest =>
    simp only [completeOneWrite, hchunks]
    rw [if_neg (by simp [h])]
    exact ⟨h, rfl⟩

theorem runWrites_unpaused (k : Nat) : ∀ (s : FlowState), s.flowPaused = false →
    (runWrites s k).flowPaused = false ∧ (runWrites s k).session = s.session := by
  induction k with
  | zero => exact fun s h => ⟨h, rfl⟩
  | succ k ih =>
    intro s h
    obtain ⟨h1, h2⟩ := completeOneWrite_unpaused s h
    obtain ⟨h3, h4⟩ := ih (completeOneWrite s) h1
    exact ⟨h3, h4.trans h2⟩

/-- C7: watermark hysteresis.  (1) From an unpaused state below the high
watermark, a sequence of enqueued chunks issues exactly one PTY pause when
the pending byte count crosses the high watermark and none otherwise, and
never issues a resume.  (2) While paused, a completed write leaving more
than the low watermark pending issues nothing.  (3) While paused, the
completed write that brings the pending count to at or below the low
watermark issues exactly one PTY resume and unpauses.  (4) Once unpaused,
further completed writes issue nothing.  (5) The main-process
pause/resume call is an idempotent no-op when the session is already in
the requested state. -/
theorem flow_watermark_hysteresis :
    (∀ (s : FlowState) (ns : List Nat), s.flowPaused = false →
      s.session.flowPaused = false → s.pendingBytes < OUTPUT_PAUSE_WATERMARK →
      (runEnqueues s ns).session.pauseOps = s.session.pauseOps +
        (if OUTPUT_PAUSE_WATERMARK ≤ s.pendingBytes + ns.sum then 1 else 0) ∧
      (runEnqueues s ns).session.resumeOps = s.session.resumeOps) ∧
    (∀ (s : FlowState) (n : Nat) (rest : List Nat), s.flowPaused = true →
      s.pendingChunks = n :: rest → OUTPUT_RESUME_WATERMARK < s.pendingBytes - n →
      (completeOneWrite s).flowPaused = true ∧
      (completeOneWrite s).session = s.session) ∧
    (∀ (s : FlowState) (n : Nat) (rest : List Nat), s.flowPaused = true →
      s.session.flowPaused = true → s.pendingChunks = n :: rest →
      s.pendingBytes - n ≤ OUTPUT_RESUME_WATERMARK →
      (completeOneWrite s).flowPaused = false ∧
      (completeOneWrite s).session.resumeOps = s.session.resumeOps + 1 ∧
      (completeOneWrite s).session.pauseOps = s.session.pauseOps) ∧
    (∀ (s : FlowState) (k : Nat), s.flowPaused = false →
      (runWrites s k).session = s.session) ∧
    (∀ (m : MainTerminalSession) (p : Bool), m.flowPaused = p →
      setTerminalSessionFlowControl m p = (m, true)) := by
  refine ⟨?_, ?_, ?_, ?_, ?_⟩
  · exact fun s ns h hs hb => runEnqueues_unpaused ns s h hs hb
  · exact fun s n rest h hc hb => completeOneWrite_above s n rest h hc hb
  · exact fun s n rest h hs hc hb => completeOneWrite_resume s n rest h hs hc hb
  · exact fun s k h => (runWrites_unpaused k s h).2
  · intro m p hmp
    subst hmp
    unfold setTerminalSessionFlowControl
    split_ifs with h1 h2
    · exact absurd h1.1 h1.2
    · exact absurd h2.2 h2.1
    · rfl

/-- Witness for the C7 theorem: one 600000-byte chunk from an idle
unpaused state crosses the high watermark and issues exactly one pause,
and the pause call on an already-paused session is a no-op. -/
theorem flow_watermark_hysteresis_witness :
    ((runEnqueues (FlowState.mk [] 0 false (MainTerminalSession.mk false 0 0))
        [600000]).session.pauseOps =
      (FlowState.mk [] 0 false (MainTerminalSession.mk false 0 0)).session.pauseOps +
        (if OUTPUT_PAUSE_WATERMARK ≤
            (FlowState.mk [] 0 false (MainTerminalSession.mk false 0 0)).pendingBytes +
              [600000].sum then 1 else 0) ∧
      (runEnqueues (FlowState.mk [] 0 false (MainTerminalSession.mk false 0 0))
        [600000]).session.resumeOps =
      (FlowState.mk [] 0 false (MainTerminalSession.mk false 0 0)).session.resumeOps) ∧
    setTerminalSessionFlowControl (MainTerminalSession.mk true 0 0) true =
      (MainTerminalSession.mk true 0 0, true) :=
  ⟨flow_watermark_hysteresis.1 (FlowState.mk [] 0 false (MainTerminalSession.mk false 0 0))
      [600000] rfl rfl (by decide),
    flow_watermark_hysteresis.2.2.2.2 (MainTerminalSession.mk true 0 0) true rfl⟩


theorem isPrefixOf_eq_true_iff (l₁ l₂ : List Char) : l₁.isPrefixOf l₂ = true ↔ l₁ <+: l₂ :=
  List.isPrefixOf_iff_prefix

theorem take_isPrefix (n : Nat) (l : List Char) : l.take n <+: l :=
  List.take_prefix n l

theorem firstMatchPos_zero (pat l : List Char) (hp : pat ≠ [])
    (h : pat.isPrefixOf l = true) : firstMatchPos pat l = some 0 := by
  cases l with
  | nil =>
    exact absurd (List.prefix_nil.mp (isPrefixOf_eq_true_iff _ _ |>.mp h)) hp
  | cons c rest => simp [firstMatchPos, h]

theorem standaloneAt_prefix_newline (marker rest : List Char) :
    standaloneAt (marker ++ '\n' :: rest) marker 0 = true := by
  have hnext : (marker ++ '\n' :: rest)[0 + marker.length]? = some '\n' := by
    rw [Nat.zero_add, List.getElem?_append_right (le_refl marker.length)]
    simp
  simp only [standaloneAt, hnext]
  simp

theorem findStandaloneMarkerLine_zero (input marker : List Char) (hm : marker ≠ [])
    (hpre : marker.isPrefixOf input = true)
    (hstand : standaloneAt input marker 0 = true) :
    findStandaloneMarkerLine input marker = some 0 := by
  have hlen : 0 < input.length := by
    cases input with
    | nil => exact absurd (List.prefix_nil.mp (isPrefixOf_eq_true_iff _ _ |>.mp hpre)) hm
    | cons c rest => simp
  have hidx : indexOfFrom input marker 0 = some 0 := by
    unfold indexOfFrom
    rw [List.drop_zero, firstMatchPos_zero marker input hm hpre]
    rfl
  unfold findStandaloneMarkerLine findStandaloneAux
  rw [if_pos hlen, hidx]
  simp [hstand]

theorem stripOneLeadingNewline_cons (l : List Char) :
    stripOneLeadingNewline ('\n' :: l) = l := by
  unfold stripOneLeadingNewline
  rw [if_neg (by simp [List.isPrefixOf]), if_pos (by simp [List.isPrefixOf])]
  rfl

theorem takeWhile_append_all (p : Char → Bool) (l r : List Char)
    (h : ∀ c ∈ l, p c = true) :
    (l ++ r).takeWhile p = l ++ r.takeWhile p := by
  induction l with
  | nil => simp
  | cons c cs ih =>
    simp only [List.cons_append, List.takeWhile_cons]
    rw [h c (List.mem_cons_self c cs)]
    simp only [if_true]
    rw [ih (fun x hx => h x (List.mem_cons_of_mem c hx))]

theorem digitsThenTerm_exact (ds : List Char) (hne : ds ≠ [])
    (hd : ∀ c ∈ ds, isDigitChar c = true) :
    digitsThenTerm (ds ++ ['_', '_']) = some ds := by
  unfold digitsThenTerm
  rw [takeWhile_append_all isDigitChar ds ['_', '_'] hd]
  have h1 : (['_', '_'] : List Char).takeWhile isDigitChar = [] := by decide
  rw [h1, List.append_nil, if_neg hne, List.drop_left]
  simp [isPrefixOf_eq_true_iff]

theorem execCodeGroup_exact (ds : List Char) (hne : ds ≠ [])
    (hd : ∀ c ∈ ds, isDigitChar c = true) :
    execCodeGroup (ds ++ ['_', '_']) = some ds := by
  cases ds with
  | nil => exact absurd rfl hne
  | cons d t =>
    have hd0 : isDigitChar d = true := hd d (List.mem_cons_self d t)
    have hdm : d ≠ '-' := by
      intro h
      rw [h] at hd0
      exact absurd hd0 (by decide)
    show execCodeGroup (d :: (t ++ ['_', '_'])) = some (d :: t)
    simp only [execCodeGroup, if_neg hdm]
    exact digitsThenTerm_exact (d :: t) hne hd

theorem parseSignedDigits_digits (ds : List Char) (hne : ds ≠ [])
    (hd : ∀ c ∈ ds, isDigitChar c = true) :
    parseSignedDigits ds = (natFromDigits ds : Int) := by
  cases ds with
  | nil => rfl
  | cons c t =>
    have hc := hd c (List.mem_cons_self c t)
    have hcm : c ≠ '-' := by
      intro h
      rw [h] at hc
      exact absurd hc (by decide)
    simp [parseSignedDigits, hcm]

theorem doneQualAt_boundary (S dm ds : List Char)
    (hS : S = [] ∨ ∃ S0, S = S0 ++ ['\n'])
    (hne : ds ≠ []) (hd : ∀ c ∈ ds, isDigitChar c = true) :
    doneQualAt (S ++ (dm ++ ds ++ ['_', '_'])) dm S.length =
      some (parseSignedDigits ds, ds.length) := by
  have hdrop1 : (S ++ (dm ++ ds ++ ['_', '_'])).drop S.length = dm ++ ds ++ ['_', '_'] :=
    List.drop_left S _
  have hpre : dm.isPrefixOf ((S ++ (dm ++ ds ++ ['_', '_'])).drop S.length) = true := by
    rw [hdrop1, List.append_assoc]
    exact (isPrefixOf_eq_true_iff _ _).mpr (List.prefix_append dm _)
  have hprev : S.length = 0 ∨ (S ++ (dm ++ ds ++ ['_', '_']))[S.length - 1]? = some '\n' := by
    cases hS with
    | inl h => subst h; exact Or.inl rfl
    | inr h =>
      obtain ⟨S0, rfl⟩ := h
      right
      have hlt : (S0 ++ ['\n']).length - 1 < (S0 ++ ['\n']).length := by
        simp
      rw [List.getElem?_append_left hlt]
      have : (S0 ++ ['\n']).length - 1 = S0.length := by simp
      rw [this, List.getElem?_append_right (le_refl S0.length)]
      simp
  have hdrop2 : (S ++ (dm ++ ds ++ ['_', '_'])).drop (S.length + dm.length) =
      ds ++ ['_', '_'] := by
    have hre : S ++ (dm ++ ds ++ ['_', '_']) = (S ++ dm) ++ (ds ++ ['_', '_']) := by
      simp [List.append_assoc]
    rw [hre]
    have hlen : S.length + dm.length = (S ++ dm).length := (List.length_append S dm).symm
    rw [hlen, List.drop_left]
  unfold doneQualAt
  rw [if_pos ⟨hprev, hpre⟩, hdrop2, execCodeGroup_exact ds hne hd]
  rfl

theorem doneQualAt_below (S Y dm : List Char) (q : Nat) (hq : q < S.length)
    (hnl : '\n' ∉ dm) (hinf : ¬ dm <:+: S) (hSend : ∃ S0, S = S0 ++ ['\n']) :
    doneQualAt (S ++ Y) dm q = none := by
  unfold doneQualAt
  rw [if_neg]
  rintro ⟨-, hpre⟩
  rw [List.drop_append_of_le_length (le_of_lt hq)] at hpre
  have hpre' : dm <+: (S.drop q ++ Y) := (isPrefixOf_eq_true_iff _ _).mp hpre
  by_cases hlen : dm.length ≤ (S.drop q).length
  · have hdm : dm <+: S.drop q := by
      have h1 : dm = List.take dm.length (S.drop q ++ Y) :=
        List.prefix_iff_eq_take.mp hpre'
      rw [List.take_append_of_le_length hlen] at h1
      rw [h1]
      exact take_isPrefix _ _
    exact hinf (hdm.isInfix.trans (List.drop_suffix q S).isInfix)
  · push_neg at hlen
    have htake := congrArg (List.take (S.drop q).length) (List.prefix_iff_eq_take.mp hpre')
    rw [List.take_take, min_eq_left (le_of_lt hlen), List.take_left] at htake
    have hmem : '\n' ∈ S.drop q := by
      obtain ⟨S0, rfl⟩ := hSend
      have hq' : q ≤ S0.length := by
        rw [List.length_append] at hq
        simp at hq
        omega
      rw [List.drop_append_of_le_length hq']
      exact List.mem_append.mpr (Or.inr (by simp))
    rw [← htake] at hmem
    exact hnl ((take_isPrefix _ _).subset hmem)

theorem findFirstSome_spec {β : Type} (f : Nat → Option β) (n : Nat) (v : β) :
    ∀ (fuel start : Nat), start ≤ n → n - start < fuel →
    (∀ i, start ≤ i → i < n → f i = none) → f n = some v →
    findFirstSome f fuel start = some (n, v) := by
  intro fuel
  induction fuel with
  | zero => exact fun start h1 h2 _ _ => absurd h2 (by omega)
  | succ fuel ih =>
    intro start h1 h2 hnone hv
    unfold findFirstSome
    by_cases hs : start = n
    · subst hs
      rw [hv]
    · have hlt : start < n := lt_of_le_of_ne h1 hs
      rw [hnone start (le_refl start) hlt]
      exact ih (start + 1) hlt (by omega) (fun i hi1 hi2 => hnone i (by omega) hi2) hv

theorem findDoneMatch_boundary (S dm ds : List Char)
    (hS : S = [] ∨ ∃ S0, S = S0 ++ ['\n'])
    (hne : ds ≠ []) (hd : ∀ c ∈ ds, isDigitChar c = true)
    (hnl : '\n' ∉ dm) (hinf : ¬ dm <:+: S) :
    findDoneMatch (S ++ (dm ++ ds ++ ['_', '_'])) dm =
      some (S.length, parseSignedDigits ds, ds.length) := by
  unfold findDoneMatch
  apply findFirstSome_spec
  · exact Nat.zero_le _
  · rw [Nat.sub_zero, List.length_append]
    omega
  · intro i _ hi
    cases hS with
    | inl h =>
      subst h
      simp at hi
    | inr h => exact doneQualAt_below S _ dm i hi hnl hinf h
  · exact doneQualAt_boundary S dm ds hS hne hd


theorem splitLines_end_newline (l : List Char) :
    (splitLines (l ++ ['\n'])).2 = [] ∧ (splitLines (l ++ ['\n'])).1 ≠ [] := by
  induction l with
  | nil =>
    refine ⟨rfl, ?_⟩
    simp [splitLines]
  | cons c rest ih =>
    simp only [List.cons_append, splitLines]
    by_cases hc : c = '\n'
    · subst hc
      simp only [if_true]
      exact ⟨ih.1, by simp⟩
    · rw [if_neg hc]
      cases hp : (splitLines (rest ++ ['\n'])).1 with
      | nil => exact absurd hp ih.2
      | cons lh lt => exact ⟨ih.1, by simp⟩

theorem filter_clean_chunk (bm dm S : List Char)
    (hS : S = [] ∨ ∃ S0, S = S0 ++ ['\n'])
    (hclean : ∀ l ∈ (splitLines S).1, shouldFilterExecNoiseLine l bm dm = false) :
    filterExecNoiseChunk bm dm [] S = (S, []) := by
  have h2 : (splitLines S).2 = [] := by
    cases hS with
    | inl h => subst h; rfl
    | inr h =>
      obtain ⟨S0, rfl⟩ := h
      exact (splitLines_end_newline S0).1
  have hfilter : (splitLines S).1.filter
      (fun l => !shouldFilterExecNoiseLine l bm dm) = (splitLines S).1 :=
    List.filter_eq_self.mpr (fun l hl => by rw [hclean l hl]; rfl)
  have hflat := splitLines_flatten S
  rw [h2, List.append_nil] at hflat
  have e1 : (filterExecNoiseChunk bm dm [] S).1 = S := by
    show ((splitLines ([] ++ S)).1.filter
      (fun l => !shouldFilterExecNoiseLine l bm dm)).flatten = S
    rw [List.nil_append, hfilter, hflat]
  have e2 : (filterExecNoiseChunk bm dm [] S).2 = [] := by
    show (splitLines ([] ++ S)).2 = []
    rw [List.nil_append, h2]
  exact Prod.ext e1 e2


/-- C1: clean round trip.  For any exec request (markers built from its
request id, which contains no newline), if the raw PTY output is the
begin marker on its own line, then command stdout `S` (newline-terminated
or empty, containing no noise-pattern lines and no done-marker text),
then the done marker line carrying the exit-code digits `ds`, the codec
resolves the request with `success = (E = 0)`, `exitCode = E` and
`stdout = S`, where `E` is the decimal value of `ds`. -/
theorem exec_roundtrip (requestId S ds : List Char)
    (hnl : '\n' ∉ requestId)
    (hS : S = [] ∨ ∃ S0, S = S0 ++ ['\n'])
    (hnoMarker : ¬ doneMarkerOf requestId <:+: S)
    (hclean : ∀ l ∈ (splitLines S).1,
      shouldFilterExecNoiseLine l (beginMarkerOf requestId) (doneMarkerOf requestId) =
        false)
    (hne : ds ≠ []) (hd : ∀ c ∈ ds, isDigitChar c = true) :
    ∃ r, (processExecOutput (some (freshActiveExec requestId))
        (beginMarkerOf requestId ++ '\n' ::
          (S ++ (doneMarkerOf requestId ++ ds ++ ['_', '_'])))).resolved =
      some (requestId, r) ∧
      r.success = decide ((natFromDigits ds : Int) = 0) ∧
      r.code = some ((natFromDigits ds : Int)) ∧
      r.stdout = S ∧
      r.stderr = (if (natFromDigits ds : Int) = 0 then []
        else exitCodeMessage ((natFromDigits ds : Int))) := by
  have hbm_ne : beginMarkerOf requestId ≠ [] := by
    intro h
    have := congrArg List.length h
    simp [beginMarkerOf] at this
  have hdm_nl : '\n' ∉ doneMarkerOf requestId := by
    intro h
    unfold doneMarkerOf at h
    rcases List.mem_append.mp h with h1 | h2
    · rcases List.mem_append.mp h1 with h3 | h4
      · exact absurd h3 (by decide)
      · exact hnl h4
    · exact absurd h2 (by decide)
  have hps := parseSignedDigits_digits ds hne hd
  have hfound : findStandaloneMarkerLine
      ((freshActiveExec requestId).rawTail ++
        (beginMarkerOf requestId ++ '\n' ::
          (S ++ (doneMarkerOf requestId ++ ds ++ ['_', '_']))))
      (freshActiveExec requestId).beginMarker = some 0 := by
    show findStandaloneMarkerLine
      ([] ++ (beginMarkerOf requestId ++ '\n' ::
        (S ++ (doneMarkerOf requestId ++ ds ++ ['_', '_']))))
      (beginMarkerOf requestId) = some 0
    rw [List.nil_append]
    exact findStandaloneMarkerLine_zero _ _ hbm_ne
      ((isPrefixOf_eq_true_iff _ _).mpr (List.prefix_append _ _))
      (standaloneAt_prefix_newline _ _)
  have hstep1 : processExecOutput (some (freshActiveExec requestId))
      (beginMarkerOf requestId ++ '\n' ::
        (S ++ (doneMarkerOf requestId ++ ds ++ ['_', '_']))) =
      processStarted { freshActiveExec requestId with started := true, rawTail := [] }
        (S ++ (doneMarkerOf requestId ++ ds ++ ['_', '_'])) := by
    rw [processExecOutput_begin_found _ _ 0 rfl hfound]
    congr 1
    show stripOneLeadingNewline
        (([] ++ (beginMarkerOf requestId ++ '\n' ::
          (S ++ (doneMarkerOf requestId ++ ds ++ ['_', '_'])))).drop
          (0 + (beginMarkerOf requestId).length)) =
      S ++ (doneMarkerOf requestId ++ ds ++ ['_', '_'])
    rw [List.nil_append, Nat.zero_add, List.drop_left]
    exact stripOneLeadingNewline_cons _
  have hdone : findDoneMatch
      (({ freshActiveExec requestId with started := true, rawTail := [] } :
          ActiveExecState).rawTail ++
        (S ++ (doneMarkerOf requestId ++ ds ++ ['_', '_'])))
      ({ freshActiveExec requestId with started := true, rawTail := [] } :
        ActiveExecState).doneMarker =
      some (S.length, parseSignedDigits ds, ds.length) := by
    show findDoneMatch ([] ++ (S ++ (doneMarkerOf requestId ++ ds ++ ['_', '_'])))
      (doneMarkerOf requestId) = some (S.length, parseSignedDigits ds, ds.length)
    rw [List.nil_append]
    exact findDoneMatch_boundary S (doneMarkerOf requestId) ds hS hne hd hdm_nl hnoMarker
  have hstep2 := processStarted_done
    ({ freshActiveExec requestId with started := true, rawTail := [] })
    (S ++ (doneMarkerOf requestId ++ ds ++ ['_', '_']))
    S.length (parseSignedDigits ds) ds.length hdone
  have hfclean := filter_clean_chunk (beginMarkerOf requestId) (doneMarkerOf requestId) S
    hS hclean
  have hstep3 : (processStarted
      ({ freshActiveExec requestId with started := true, rawTail := [] })
      (S ++ (doneMarkerOf requestId ++ ds ++ ['_', '_']))).resolved =
      some (requestId,
        if (natFromDigits ds : Int) = 0 then
          { success := true, code := some 0, stdout := S, stderr := [], error := none }
        else
          { success := false, code := some ((natFromDigits ds : Int)), stdout := S,
            stderr := exitCodeMessage ((natFromDigits ds : Int)),
            error := some (exitCodeMessage ((natFromDigits ds : Int))) }) := by
    rw [hstep2]
    simp only [freshActiveExec, List.nil_append, List.take_left, hfclean, hps]
    simp
  rw [hstep1, hstep3]
  by_cases h0 : (natFromDigits ds : Int) = 0
  · rw [if_pos h0, if_pos h0]
    refine ⟨_, rfl, ?_, ?_, rfl, rfl⟩
    · simp [h0]
    · rw [h0]
  · rw [if_neg h0, if_neg h0]
    refine ⟨_, rfl, ?_, rfl, rfl, rfl⟩
    simp [h0]

/-- Witness for the C1 theorem: `out\n` with exit code 0. -/
theorem exec_roundtrip_witness :
    ∃ r, (processExecOutput (some (freshActiveExec ['w']))
        (beginMarkerOf ['w'] ++ '\n' ::
          ("out\n".toList ++ (doneMarkerOf ['w'] ++ ['0'] ++ ['_', '_'])))).resolved =
      some (['w'], r) ∧
      r.success = decide ((natFromDigits ['0'] : Int) = 0) ∧
      r.code = some ((natFromDigits ['0'] : Int)) ∧
      r.stdout = "out\n".toList ∧
      r.stderr = (if (natFromDigits ['0'] : Int) = 0 then []
        else exitCodeMessage ((natFromDigits ['0'] : Int))) :=
  exec_roundtrip ['w'] "out\n".toList ['0'] (by decide)
    (Or.inr ⟨"out".toList, by decide⟩) (by decide) (by decide) (by decide) (by decide)

end AppPad
